import Mathlib

/-!
Verification of the task-tracker CLI (`task-cli.js`).

The program is a single-file Node.js CLI that keeps a JSON array of task
records in a file `tasks.json` and offers the commands `add`, `list`,
`update`, `delete`, `mark-in-progress` and `mark-done`.  Below we embed the
data model and the operations shallowly:

* a JS task object becomes the structure `Task`;
* the stored collection becomes a `List Task`; an operation that writes the
  file reports the new collection in its `ok` result, while the error
  results (`invalidInput`, `notFound`, ...) report that nothing was saved;
* the Node built-in `parseInt` is embedded as `parseIntJS` (leading
  whitespace skipped, optional sign, longest leading digit run, `none` for
  NaN), and `String.prototype.toLowerCase` as `toLowerJS` (ASCII case
  mapping, which covers every string the program compares against);
* the backing file is abstracted by `FileState`: absent, zero-length, or
  text content together with the outcome of `JSON.parse` on it (a `JVal`
  JSON value, or `none` when parsing throws).
-/

namespace TaskCli

/-- A task record, as produced by `addTask` in `task-cli.js`:
fields `id`, `description`, `status`, `createdAt`, `updatedAt`. -/
structure Task where
  id : Int
  description : String
  status : String
  createdAt : String
  updatedAt : String
deriving Repr, DecidableEq

/-- Embedding of the JavaScript built-in `parseInt(s)` on decimal strings:
skip leading whitespace, read an optional sign and then the longest run of
decimal digits; `none` models the NaN result when no digit follows. -/
def parseIntJS (s : String) : Option Int :=
  let cs := s.data.dropWhile Char.isWhitespace
  let signed : Int × List Char :=
    match cs with
    | '-' :: rest => (-1, rest)
    | '+' :: rest => (1, rest)
    | _ => (1, cs)
  let ds := signed.2.takeWhile Char.isDigit
  if ds.isEmpty then none
  else some (signed.1 * (ds.foldl (fun n c => n * 10 + (c.toNat - 48)) 0 : Nat))

/-- Embedding of `String.prototype.toLowerCase` restricted to the ASCII
range, which is all the program ever compares against (`all`, `todo`,
`in-progress`, `done`): each character is lowered with `Char.toLower`. -/
def toLowerJS (s : String) : String :=
  ⟨s.data.map Char.toLower⟩

/-- Embedding of `getNextId(tasks)`: `1` for an empty list, otherwise
`tasks.reduce((max, task) => Math.max(max, task.id), 0) + 1`. -/
def getNextId (tasks : List Task) : Int :=
  if tasks.length = 0 then 1
  else (tasks.foldl (fun m t => max m t.id) 0) + 1

/-- Result of `addTask`: the error print for a missing description, or the
saved collection together with the new id that is reported to the user. -/
inductive AddResult where
  | invalidInput : AddResult
  | ok : List Task → Int → AddResult
deriving Repr, DecidableEq

/-- Embedding of `addTask(description)`: reject an empty description,
otherwise build the new task with `getNextId`, status `todo` and both
timestamps equal to `now`, push it at the end and save. -/
def addTask (tasks : List Task) (description : String) (now : String) : AddResult :=
  if description = "" then .invalidInput
  else
    let newId := getNextId tasks
    .ok (tasks ++ [⟨newId, description, "todo", now, now⟩]) newId

/-- Observable outcome of `listTasks`: the early `"No hay tareas registradas"`
return, the invalid-filter error, the `"No hay tareas con estado ..."`
message, or the printed list of tasks. -/
inductive ListResult where
  | noTasks : ListResult
  | invalidFilter : String → ListResult
  | noneWithStatus : String → ListResult
  | display : List Task → ListResult
deriving Repr, DecidableEq

/-- Tasks actually printed by a `ListResult` (empty for the three
message-only outcomes). -/
def ListResult.displayed : ListResult → List Task
  | .display ts => ts
  | _ => []

/-- True exactly on the invalid-filter error outcome. -/
def ListResult.isInvalidFilter : ListResult → Bool
  | .invalidFilter _ => true
  | _ => false

/-- Embedding of `listTasks(statusFilter)`.  The argument is `none` when the
CLI received no filter; the JS expression `statusFilter || 'all'` also turns
an empty string into `'all'` before lowercasing.  An empty store returns
early with the no-tasks message, before the filter is even inspected. -/
def listTasks (tasks : List Task) (statusFilter : Option String) : ListResult :=
  if tasks.length = 0 then .noTasks
  else
    let raw := match statusFilter with
      | none => "all"
      | some s => if s = "" then "all" else s
    let filter := toLowerJS raw
    if filter ≠ "all" then
      if ¬ (["todo", "in-progress", "done"].contains filter) then
        .invalidFilter filter
      else
        let tasksToDisplay := tasks.filter (fun t => t.status == filter)
        if tasksToDisplay.length = 0 then .noneWithStatus filter
        else .display tasksToDisplay
    else .display tasks

/-- Replace the task at position `i`, leaving everything else in place;
this is the JS index assignment `tasks[taskIndex] = ...` (applied as a
field mutation) used by `updateTask`. -/
def modifyTask : List Task → Nat → (Task → Task) → List Task
  | [], _, _ => []
  | t :: ts, 0, f => f t :: ts
  | t :: ts, Nat.succ n, f => t :: modifyTask ts n f

/-- Result of `updateTask`: the usage error for a NaN id or empty
description, the not-found error (nothing saved), or the saved collection
with the parsed id that is reported. -/
inductive UpdateResult where
  | invalidInput : UpdateResult
  | notFound : Int → UpdateResult
  | ok : List Task → Int → UpdateResult
deriving Repr, DecidableEq

/-- Embedding of `updateTask(id, newDescription)`: `parseInt` the id,
reject NaN or an empty description, find the first task with that id
(`findIndex`), report not-found when there is none, otherwise overwrite its
`description`, refresh `updatedAt` and save. -/
def updateTask (tasks : List Task) (idArg : String) (newDescription : String)
    (now : String) : UpdateResult :=
  match parseIntJS idArg with
  | none => .invalidInput
  | some taskId =>
    if newDescription = "" then .invalidInput
    else
      match tasks.findIdx? (fun t => t.id == taskId) with
      | none => .notFound taskId
      | some i =>
        .ok (modifyTask tasks i
              (fun t => { t with description := newDescription, updatedAt := now })) taskId

/-- Result of `deleteTask`: the usage error for a NaN id, the not-found
error (nothing saved), or the saved collection with the parsed id. -/
inductive DeleteResult where
  | invalidInput : DeleteResult
  | notFound : Int → DeleteResult
  | ok : List Task → Int → DeleteResult
deriving Repr, DecidableEq

/-- Embedding of `deleteTask(id)`: `parseInt` the id, reject NaN, filter
out every task whose id equals it, report not-found when the length did not
change, otherwise save the filtered list. -/
def deleteTask (tasks : List Task) (idArg : String) : DeleteResult :=
  match parseIntJS idArg with
  | none => .invalidInput
  | some taskId =>
    let updatedTasks := tasks.filter (fun t => t.id != taskId)
    if updatedTasks.length = tasks.length then .notFound taskId
    else .ok updatedTasks taskId

/-- Result of `setStatus`: not-found (nothing saved) or the saved
collection with the id. -/
inductive SetStatusResult where
  | notFound : Int → SetStatusResult
  | ok : List Task → Int → SetStatusResult
deriving Repr, DecidableEq

/-- Modelled from the spec: the `setStatus(id, newStatus)` operation behind
`mark-in-progress` and `mark-done` is not implemented in the source (`main`
only prints a placeholder for those commands), so it is modelled from the
spec's words: fails with `NotFound` if the id is absent; otherwise sets
`status` to the new value, refreshes `updatedAt`, and saves. -/
def setStatus (tasks : List Task) (taskId : Int) (newStatus : String)
    (now : String) : SetStatusResult :=
  match tasks.findIdx? (fun t => t.id == taskId) with
  | none => .notFound taskId
  | some i =>
    .ok (modifyTask tasks i
          (fun t => { t with status := newStatus, updatedAt := now })) taskId

/-- One CLI mutation, with the string arguments exactly as the CLI passes
them to the corresponding function. -/
inductive Op where
  | add : String → Op
  | update : String → String → Op
  | del : String → Op
  | mark : Int → String → Op
deriving Repr, DecidableEq

/-- Effect of one operation on the stored collection: the store changes
only when the operation reaches its save, and is untouched on any error
result. -/
def applyOp (now : String) (tasks : List Task) : Op → List Task
  | .add d =>
    match addTask tasks d now with
    | .ok ts _ => ts
    | .invalidInput => tasks
  | .update i d =>
    match updateTask tasks i d now with
    | .ok ts _ => ts
    | _ => tasks
  | .del i =>
    match deleteTask tasks i with
    | .ok ts _ => ts
    | _ => tasks
  | .mark i s =>
    match setStatus tasks i s now with
    | .ok ts _ => ts
    | _ => tasks

/-- The stored collection after running a sequence of operations (each
paired with the timestamp of its invocation) from an empty store. -/
def runOps (ops : List (Op × String)) : List Task :=
  ops.foldl (fun ts p => applyOp p.2 ts p.1) []

/-- Adding a list of tasks one after the other, exactly as repeated `add`
invocations of the CLI do. -/
def addMany (tasks : List Task) (descs : List String) (now : String) : List Task :=
  descs.foldl (fun ts d => applyOp now ts (Op.add d)) tasks

/-- A JSON value, as produced by a successful `JSON.parse`.  Task records
are kept abstractly as `Task` inside arrays so that a well-formed stored
file is the `arr` of its tasks; `other` covers every other JSON shape
(numbers, strings, objects, booleans, null, arrays of non-task values). -/
inductive JVal where
  | arr : List Task → JVal
  | num : Int → JVal
  | str : String → JVal
  | other : JVal
deriving Repr, DecidableEq

/-- Does a JSON value match the expected schema, a sequence of Task
records?  With `JVal` keeping task arrays abstract this is just being an
`arr`. -/
def isTaskArray : JVal → Bool
  | .arr _ => true
  | _ => false

/-- State of the backing file `tasks.json`: absent, zero-length, or
non-empty content abstracted by its `JSON.parse` outcome (`none` when the
parse throws). -/
inductive FileState where
  | absent : FileState
  | empty : FileState
  | content : Option JVal → FileState
deriving Repr, DecidableEq

/-- Observable outcome of `loadTasks`: the value handed to the caller and
whether the corrupt-file error was printed. -/
structure LoadOutcome where
  value : JVal
  corruptReported : Bool
deriving Repr, DecidableEq

/-- Embedding of `loadTasks()`: an absent or zero-length file yields the
empty array silently; content whose `JSON.parse` succeeds is returned
verbatim (no schema check); content whose parse throws prints the
corrupt-file error and yields the empty array. -/
def loadTasks : FileState → LoadOutcome
  | .absent => ⟨.arr [], false⟩
  | .empty => ⟨.arr [], false⟩
  | .content (some v) => ⟨v, false⟩
  | .content none => ⟨.arr [], true⟩

/-! ### Helper lemmas about finding, modifying and filtering by id -/

lemma findIdx?_append_cons (p : Task → Bool) (pre : List Task) (t : Task)
    (post : List Task) (hpre : ∀ u ∈ pre, p u = false) (ht : p t = true) :
    (pre ++ t :: post).findIdx? p = some pre.length := by
  induction pre with
  | nil => simp [ht]
  | cons u us ih =>
    have hu : p u = false := hpre u (by simp)
    have ihh := ih (fun v hv => hpre v (by simp [hv]))
    simp [hu, List.findIdx?_succ, ihh]

lemma modifyTask_append (pre : List Task) (t : Task) (post : List Task)
    (f : Task → Task) :
    modifyTask (pre ++ t :: post) pre.length f = pre ++ f t :: post := by
  induction pre with
  | nil => rfl
  | cons u us ih => simpa [modifyTask] using ih

lemma map_id_modifyTask (l : List Task) (i : Nat) (f : Task → Task)
    (hf : ∀ t, (f t).id = t.id) :
    (modifyTask l i f).map Task.id = l.map Task.id := by
  induction l generalizing i with
  | nil => rfl
  | cons t ts ih =>
    cases i with
    | zero => simp [modifyTask, hf]
    | succ n => simp [modifyTask, ih]

lemma updateTask_eq_invalid (tasks : List Task) (idArg d now : String)
    (h : parseIntJS idArg = none ∨ d = "") :
    updateTask tasks idArg d now = .invalidInput := by
  rcases h with h | h
  · simp [updateTask, h]
  · cases hp : parseIntJS idArg <;> simp [updateTask, hp, h]

lemma updateTask_eq_notFound (tasks : List Task) (idArg d now : String) (n : Int)
    (hp : parseIntJS idArg = some n) (hd : d ≠ "")
    (habs : ∀ t ∈ tasks, t.id ≠ n) :
    updateTask tasks idArg d now = .notFound n := by
  have hnone : tasks.findIdx? (fun t => t.id == n) = none := by
    rw [List.findIdx?_eq_none_iff]
    intro t ht
    simpa using habs t ht
  simp [updateTask, hp, hd, hnone]

lemma updateTask_eq_ok (idArg d now : String) (n : Int) (pre : List Task)
    (t : Task) (post : List Task) (hp : parseIntJS idArg = some n) (hd : d ≠ "")
    (hpre : ∀ u ∈ pre, u.id ≠ n) (ht : t.id = n) :
    updateTask (pre ++ t :: post) idArg d now =
      .ok (pre ++ { t with description := d, updatedAt := now } :: post) n := by
  have hfind : (pre ++ t :: post).findIdx? (fun u => u.id == n) = some pre.length :=
    findIdx?_append_cons _ pre t post (fun u hu => by simpa using hpre u hu)
      (by simp [ht])
  simp [updateTask, hp, hd, hfind, modifyTask_append]

/-! ### Claim theorems -/

/-- C1: for every collection and every id, `setStatus` (the operation behind
`mark-in-progress` and `mark-done`, modelled from the spec because the source
leaves those commands as placeholders) fails with not-found when no task has
the id, and otherwise sets exactly that task's status to the requested value,
refreshes its `updatedAt`, leaves everything else unchanged, and saves. -/
theorem C1_setStatus_spec (tasks : List Task) (taskId : Int) (st now : String) :
    ((∀ t ∈ tasks, t.id ≠ taskId) → setStatus tasks taskId st now = .notFound taskId) ∧
    (∀ pre t post, tasks = pre ++ t :: post → (∀ u ∈ pre, u.id ≠ taskId) →
      t.id = taskId →
      setStatus tasks taskId st now =
        SetStatusResult.ok (pre ++ { t with status := st, updatedAt := now } :: post)
          taskId) := by
  constructor
  · intro h
    have hnone : tasks.findIdx? (fun t => t.id == taskId) = none := by
      rw [List.findIdx?_eq_none_iff]
      intro t ht
      simpa using h t ht
    simp [setStatus, hnone]
  · intro pre t post hdecomp hpre ht
    subst hdecomp
    have hfind : (pre ++ t :: post).findIdx? (fun u => u.id == taskId) = some pre.length :=
      findIdx?_append_cons _ pre t post (fun u hu => by simpa using hpre u hu)
        (by simp [ht])
    simp [setStatus, hfind, modifyTask_append]

/-- Witness for C1 at a concrete input: marking task 3 done in a singleton
collection rewrites its status and `updatedAt` and keeps the rest. -/
theorem C1_setStatus_spec_witness :
    setStatus [⟨3, "a", "todo", "c0", "c0"⟩] 3 "done" "n1" =
      SetStatusResult.ok [⟨3, "a", "done", "c0", "n1"⟩] 3 :=
  (C1_setStatus_spec [⟨3, "a", "todo", "c0", "c0"⟩] 3 "done" "n1").2 []
    ⟨3, "a", "todo", "c0", "c0"⟩ [] rfl (by simp) rfl

/-- C4 counterexample: the claim says non-positive and non-integer id
arguments are rejected as invalid input, but `parseInt` accepts them, so
`update` with id `"-5"` reaches the not-found branch, and `update` with id
`"3.7"` truncates to 3 and reaches the success branch. -/
theorem C4_counterexample :
    updateTask [] "-5" "x" "n0" = UpdateResult.notFound (-5) ∧
    UpdateResult.notFound (-5) ≠ UpdateResult.invalidInput ∧
    updateTask [⟨3, "a", "todo", "c0", "c0"⟩] "3.7" "b" "n1" =
      UpdateResult.ok [⟨3, "b", "todo", "c0", "n1"⟩] 3 := by
  refine ⟨by decide, by decide, ?_⟩
  decide

/-- C4 amended: `update` fails with invalid input exactly when the id fails
to `parseInt` (NaN) or the description is empty; an id string parsing to `n`
(including non-positive ones) with a non-empty description reaches not-found
when no task has id `n`, and otherwise replaces the description of the first
task with id `n`, refreshes its `updatedAt`, keeps every other task, and
saves. -/
theorem C4_updateTask_amended (tasks : List Task) (idArg d now : String) :
    ((parseIntJS idArg = none ∨ d = "") →
      updateTask tasks idArg d now = .invalidInput) ∧
    (∀ n, parseIntJS idArg = some n → d ≠ "" → (∀ t ∈ tasks, t.id ≠ n) →
      updateTask tasks idArg d now = .notFound n) ∧
    (∀ n pre t post, parseIntJS idArg = some n → d ≠ "" →
      tasks = pre ++ t :: post → (∀ u ∈ pre, u.id ≠ n) → t.id = n →
      updateTask tasks idArg d now =
        UpdateResult.ok (pre ++ { t with description := d, updatedAt := now } :: post)
          n) := by
  refine ⟨fun h => updateTask_eq_invalid tasks idArg d now h,
    fun n hp hd habs => updateTask_eq_notFound tasks idArg d now n hp hd habs,
    fun n pre t post hp hd hdecomp hpre ht => ?_⟩
  subst hdecomp
  exact updateTask_eq_ok idArg d now n pre t post hp hd hpre ht

/-- Witness for C4 amended at a concrete input: updating task 1 replaces its
description and refreshes `updatedAt`. -/
theorem C4_updateTask_amended_witness :
    updateTask [⟨1, "a", "todo", "c0", "c0"⟩] "1" "b" "n1" =
      UpdateResult.ok [⟨1, "b", "todo", "c0", "n1"⟩] 1 :=
  (C4_updateTask_amended [⟨1, "a", "todo", "c0", "c0"⟩] "1" "b" "n1").2.2 1 []
    ⟨1, "a", "todo", "c0", "c0"⟩ [] (by decide) (by decide) rfl (by simp) rfl

/-- C8: running `update` with an id that parses to `n` while no stored task
has id `n` (and a non-empty description) reports not-found, and the stored
collection is left unchanged because the not-found branch returns before
saving. -/
theorem C8_update_notFound (tasks : List Task) (idArg d now : String) (n : Int)
    (hp : parseIntJS idArg = some n) (hd : d ≠ "")
    (habs : ∀ t ∈ tasks, t.id ≠ n) :
    updateTask tasks idArg d now = .notFound n ∧
    applyOp now tasks (Op.update idArg d) = tasks := by
  have h1 := updateTask_eq_notFound tasks idArg d now n hp hd habs
  exact ⟨h1, by simp [applyOp, h1]⟩

/-- Witness for C8 at a concrete input: updating absent id 2 reports
not-found and keeps the store. -/
theorem C8_update_notFound_witness :
    updateTask [⟨1, "a", "todo", "c0", "c0"⟩] "2" "b" "n1" = UpdateResult.notFound 2 ∧
    applyOp "n1" [⟨1, "a", "todo", "c0", "c0"⟩] (Op.update "2" "b") =
      [⟨1, "a", "todo", "c0", "c0"⟩] :=
  C8_update_notFound [⟨1, "a", "todo", "c0", "c0"⟩] "2" "b" "n1" 2 (by decide)
    (by decide) (by decide)

lemma nodup_decomp_ids {pre post : List Task} {t : Task}
    (hnd : ((pre ++ t :: post).map Task.id).Nodup) :
    (∀ u ∈ pre, u.id ≠ t.id) ∧ (∀ u ∈ post, u.id ≠ t.id) := by
  rw [List.map_append, List.map_cons, List.nodup_append] at hnd
  obtain ⟨h1, h2, hdisj⟩ := hnd
  rw [List.nodup_cons] at h2
  constructor
  · intro u hu heq
    exact hdisj (List.mem_map_of_mem Task.id hu) (heq ▸ List.mem_cons_self t.id _)
  · intro u hu heq
    exact h2.1 (heq ▸ List.mem_map_of_mem Task.id hu)

lemma filter_ne_decomp (pre post : List Task) (t : Task) (n : Int) (ht : t.id = n)
    (hpre : ∀ u ∈ pre, u.id ≠ n) (hpost : ∀ u ∈ post, u.id ≠ n) :
    (pre ++ t :: post).filter (fun u => u.id != n) = pre ++ post := by
  rw [List.filter_append, List.filter_cons_of_neg (by simp [ht]),
    List.filter_eq_self.2 (fun a ha => by simpa using hpre a ha),
    List.filter_eq_self.2 (fun a ha => by simpa using hpost a ha)]

/-- C7: on a collection with unique ids, `delete` with an id string parsing
to `n` removes exactly the task with id `n` (keeping every other record in
its original relative order) and saves, and reports not-found without
saving when no task has id `n`. -/
theorem C7_deleteTask (tasks : List Task) (idArg : String) (n : Int)
    (hp : parseIntJS idArg = some n) (hnd : (tasks.map Task.id).Nodup) :
    ((∀ t ∈ tasks, t.id ≠ n) → deleteTask tasks idArg = .notFound n) ∧
    (∀ t ∈ tasks, t.id = n → ∃ pre post, tasks = pre ++ t :: post ∧
      deleteTask tasks idArg = DeleteResult.ok (pre ++ post) n) := by
  constructor
  · intro h
    have hfilter : tasks.filter (fun u => u.id != n) = tasks :=
      List.filter_eq_self.2 (fun a ha => by simpa using h a ha)
    simp [deleteTask, hp, hfilter]
  · intro t ht htid
    obtain ⟨pre, post, rfl⟩ := List.append_of_mem ht
    have hids := nodup_decomp_ids hnd
    have hfilter : (pre ++ t :: post).filter (fun u => u.id != n) = pre ++ post :=
      filter_ne_decomp pre post t n htid
        (fun u hu => htid ▸ hids.1 u hu) (fun u hu => htid ▸ hids.2 u hu)
    have hne : ((pre ++ t :: post).filter (fun u => u.id != n)).length ≠
        (pre ++ t :: post).length := by
      rw [hfilter]
      simp only [List.length_append, List.length_cons]
      omega
    refine ⟨pre, post, rfl, ?_⟩
    simp [deleteTask, hp, hfilter, hne]

/-- Witness for C7 at a concrete input: deleting id 2 from a two-task store
removes exactly that task and keeps task 1. -/
theorem C7_deleteTask_witness :
    ∃ pre post, ([⟨1, "a", "todo", "x", "x"⟩, ⟨2, "b", "todo", "x", "x"⟩] : List Task) =
        pre ++ (⟨2, "b", "todo", "x", "x"⟩ : Task) :: post ∧
      deleteTask [⟨1, "a", "todo", "x", "x"⟩, ⟨2, "b", "todo", "x", "x"⟩] "2" =
        DeleteResult.ok (pre ++ post) 2 :=
  (C7_deleteTask [⟨1, "a", "todo", "x", "x"⟩, ⟨2, "b", "todo", "x", "x"⟩] "2" 2
    (by decide) (by decide)).2 ⟨2, "b", "todo", "x", "x"⟩ (by simp) rfl

/-! ### Lemmas about id assignment -/

lemma le_foldl_max (l : List Task) (a : Int) :
    a ≤ l.foldl (fun m t => max m t.id) a := by
  induction l generalizing a with
  | nil => simp
  | cons t ts ih => exact le_trans (le_max_left a t.id) (ih (max a t.id))

lemma id_le_foldl_max (l : List Task) (a : Int) (t : Task) (ht : t ∈ l) :
    t.id ≤ l.foldl (fun m u => max m u.id) a := by
  induction l generalizing a with
  | nil => cases ht
  | cons u us ih =>
    rcases List.mem_cons.1 ht with rfl | h
    · exact le_trans (le_max_right a t.id) (le_foldl_max us (max a t.id))
    · exact ih (max a u.id) h

lemma lt_getNextId (tasks : List Task) (t : Task) (ht : t ∈ tasks) :
    t.id < getNextId tasks := by
  unfold getNextId
  cases tasks with
  | nil => cases ht
  | cons u us =>
    rw [if_neg (by simp)]
    have := id_le_foldl_max (u :: us) 0 t ht
    omega

lemma foldl_max_attained (l : List Task) (a : Int) :
    l.foldl (fun m t => max m t.id) a = a ∨
      ∃ t ∈ l, l.foldl (fun m t => max m t.id) a = t.id := by
  induction l generalizing a with
  | nil => exact Or.inl rfl
  | cons u us ih =>
    rw [List.foldl_cons]
    rcases ih (max a u.id) with h | ⟨t, ht, h⟩
    · by_cases hc : u.id ≤ a
      · left
        rw [h, max_eq_left hc]
      · right
        refine ⟨u, List.mem_cons_self u us, ?_⟩
        rw [h, max_eq_right (le_of_not_le hc)]
    · exact Or.inr ⟨t, List.mem_cons_of_mem u ht, h⟩

lemma getNextId_eq_max_succ (tasks : List Task) (hne : tasks ≠ [])
    (hpos : ∀ t ∈ tasks, 1 ≤ t.id) :
    ∃ t ∈ tasks, getNextId tasks = t.id + 1 ∧ ∀ u ∈ tasks, u.id ≤ t.id := by
  rcases foldl_max_attained tasks 0 with h | ⟨t, ht, h⟩
  · cases tasks with
    | nil => exact absurd rfl hne
    | cons u us =>
      have h1 := id_le_foldl_max (u :: us) 0 u (List.mem_cons_self u us)
      have h2 := hpos u (List.mem_cons_self u us)
      rw [h] at h1
      omega
  · refine ⟨t, ht, ?_, fun u hu => ?_⟩
    · unfold getNextId
      rw [if_neg (by simp [List.length_eq_zero, hne]), h]
    · have := id_le_foldl_max tasks 0 u hu
      rw [h] at this
      exact this

/-! ### Preservation of id uniqueness by every operation -/

lemma nodup_ids_snoc (tasks : List Task) (t : Task)
    (h : (tasks.map Task.id).Nodup) (hlt : ∀ u ∈ tasks, u.id < t.id) :
    ((tasks ++ [t]).map Task.id).Nodup := by
  rw [List.map_append, List.map_cons, List.map_nil]
  refine List.Nodup.append h (List.nodup_singleton t.id) ?_
  intro a ha hb
  obtain ⟨u, hu, rfl⟩ := List.mem_map.1 ha
  have := hlt u hu
  simp only [List.mem_singleton] at hb
  omega

lemma updateTask_ok_map_id (tasks : List Task) (i d now : String)
    (ts : List Task) (n : Int) (h : updateTask tasks i d now = .ok ts n) :
    ts.map Task.id = tasks.map Task.id := by
  cases hp : parseIntJS i with
  | none => simp [updateTask, hp] at h
  | some m =>
    by_cases hd : d = ""
    · simp [updateTask, hp, hd] at h
    · cases hf : tasks.findIdx? (fun t => t.id == m) with
      | none => simp [updateTask, hp, hd, hf] at h
      | some idx =>
        simp only [updateTask, hp, if_neg hd, hf, UpdateResult.ok.injEq] at h
        obtain ⟨h1, h2⟩ := h
        rw [← h1]
        exact map_id_modifyTask tasks idx _ (fun t => rfl)

lemma setStatus_ok_map_id (tasks : List Task) (m : Int) (s now : String)
    (ts : List Task) (n : Int) (h : setStatus tasks m s now = .ok ts n) :
    ts.map Task.id = tasks.map Task.id := by
  cases hf : tasks.findIdx? (fun t => t.id == m) with
  | none => simp [setStatus, hf] at h
  | some idx =>
    simp only [setStatus, hf, SetStatusResult.ok.injEq] at h
    obtain ⟨h1, h2⟩ := h
    rw [← h1]
    exact map_id_modifyTask tasks idx _ (fun t => rfl)

lemma deleteTask_ok_sublist (tasks : List Task) (i : String)
    (ts : List Task) (n : Int) (h : deleteTask tasks i = .ok ts n) :
    ts.Sublist tasks := by
  cases hp : parseIntJS i with
  | none => simp [deleteTask, hp] at h
  | some m =>
    by_cases hlen : (tasks.filter (fun t => t.id != m)).length = tasks.length
    · simp [deleteTask, hp, hlen] at h
    · simp only [deleteTask, hp, if_neg hlen, DeleteResult.ok.injEq] at h
      obtain ⟨h1, h2⟩ := h
      rw [← h1]
      exact List.filter_sublist tasks

lemma nodup_ids_applyOp (now : String) (tasks : List Task) (op : Op)
    (h : (tasks.map Task.id).Nodup) :
    ((applyOp now tasks op).map Task.id).Nodup := by
  cases op with
  | add d =>
    by_cases hd : d = ""
    · have heq : applyOp now tasks (Op.add d) = tasks := by
        simp [applyOp, addTask, hd]
      rw [heq]
      exact h
    · have heq : applyOp now tasks (Op.add d) =
          tasks ++ [⟨getNextId tasks, d, "todo", now, now⟩] := by
        simp [applyOp, addTask, hd]
      rw [heq]
      exact nodup_ids_snoc tasks _ h (fun u hu => lt_getNextId tasks u hu)
  | update i d =>
    show ((match updateTask tasks i d now with
      | UpdateResult.ok ts _ => ts
      | _ => tasks).map Task.id).Nodup
    cases hu : updateTask tasks i d now with
    | ok ts n =>
      show ((ts.map Task.id)).Nodup
      rw [updateTask_ok_map_id tasks i d now ts n hu]
      exact h
    | invalidInput => exact h
    | notFound m => exact h
  | del i =>
    show ((match deleteTask tasks i with
      | DeleteResult.ok ts _ => ts
      | _ => tasks).map Task.id).Nodup
    cases hdel : deleteTask tasks i with
    | ok ts n =>
      show ((ts.map Task.id)).Nodup
      exact List.Nodup.sublist (List.Sublist.map Task.id
        (deleteTask_ok_sublist tasks i ts n hdel)) h
    | invalidInput => exact h
    | notFound m => exact h
  | mark i s =>
    show ((match setStatus tasks i s now with
      | SetStatusResult.ok ts _ => ts
      | _ => tasks).map Task.id).Nodup
    cases hm : setStatus tasks i s now with
    | ok ts n =>
      show ((ts.map Task.id)).Nodup
      rw [setStatus_ok_map_id tasks i s now ts n hm]
      exact h
    | notFound m => exact h

/-- C2 counterexample: after `add a`, `add b`, `delete 2`, the id 2 that was
assigned to task `b` and deleted is handed out again by the next `add`, so
deleted ids are reused. -/
theorem C2_counterexample :
    runOps [(Op.add "a", "t1"), (Op.add "b", "t2")] =
      [⟨1, "a", "todo", "t1", "t1"⟩, ⟨2, "b", "todo", "t2", "t2"⟩] ∧
    runOps [(Op.add "a", "t1"), (Op.add "b", "t2"), (Op.del "2", "t3")] =
      [⟨1, "a", "todo", "t1", "t1"⟩] ∧
    runOps [(Op.add "a", "t1"), (Op.add "b", "t2"), (Op.del "2", "t3"),
        (Op.add "c", "t4")] =
      [⟨1, "a", "todo", "t1", "t1"⟩, ⟨2, "c", "todo", "t4", "t4"⟩] := by
  refine ⟨?_, ?_, ?_⟩ <;> decide

/-- C2 amended: in every collection reachable from the empty store by add,
update, delete and set-status operations the task ids are unique, but ids of
deleted tasks can be assigned again (the next id is one more than the
largest id still present, as the counterexample shows). -/
theorem C2_ids_unique_amended (ops : List (Op × String)) :
    ((runOps ops).map Task.id).Nodup := by
  have key : ∀ (l : List (Op × String)) (tasks : List Task),
      (tasks.map Task.id).Nodup →
      ((l.foldl (fun ts p => applyOp p.2 ts p.1) tasks).map Task.id).Nodup := by
    intro l
    induction l with
    | nil => exact fun tasks h => h
    | cons p ps ih =>
      exact fun tasks h => ih _ (nodup_ids_applyOp p.2 tasks p.1 h)
  exact key ops [] (by simp)

lemma addMany_spec (descs : List String) (tasks : List Task) (now : String)
    (hd : ∀ d ∈ descs, d ≠ "") :
    ∃ news, addMany tasks descs now = tasks ++ news ∧
      news.length = descs.length ∧
      (news.map Task.id).Pairwise (· < ·) ∧
      (∀ t ∈ tasks, ∀ u ∈ news, t.id < u.id) := by
  induction descs generalizing tasks with
  | nil => exact ⟨[], by simp [addMany], rfl, by simp, by simp⟩
  | cons d ds ih =>
    have hdne : d ≠ "" := hd d (List.mem_cons_self d ds)
    have hstep : addMany tasks (d :: ds) now =
        addMany (tasks ++ [⟨getNextId tasks, d, "todo", now, now⟩]) ds now := by
      simp [addMany, applyOp, addTask, hdne]
    obtain ⟨news, h1, h2, h3, h4⟩ :=
      ih (tasks ++ [⟨getNextId tasks, d, "todo", now, now⟩])
        (fun e he => hd e (List.mem_cons_of_mem d he))
    refine ⟨⟨getNextId tasks, d, "todo", now, now⟩ :: news, ?_, ?_, ?_, ?_⟩
    · rw [hstep, h1, List.append_assoc, List.singleton_append]
    · simp [h2]
    · rw [List.map_cons]
      refine List.Pairwise.cons ?_ h3
      intro b hb
      obtain ⟨u, hu, rfl⟩ := List.mem_map.1 hb
      exact h4 _ (List.mem_append_right tasks (List.mem_singleton.2 rfl)) u hu
    · intro t ht u hu
      rcases List.mem_cons.1 hu with rfl | hmem
      · exact lt_getNextId tasks t ht
      · exact h4 t (List.mem_append_left _ ht) u hmem

/-- C6: `getNextId` returns 1 on the empty collection and one more than the
largest existing id otherwise (for collections of positive ids, as the data
model prescribes), so a run of `add` invocations with non-empty descriptions
appends one task per description with strictly increasing ids all larger
than every pre-existing id. -/
theorem C6_add_ids (tasks : List Task) (descs : List String) (now : String)
    (hpos : ∀ t ∈ tasks, 1 ≤ t.id) (hd : ∀ d ∈ descs, d ≠ "") :
    (getNextId [] = 1) ∧
    (tasks ≠ [] → ∃ t ∈ tasks, getNextId tasks = t.id + 1 ∧ ∀ u ∈ tasks, u.id ≤ t.id) ∧
    (∃ news, addMany tasks descs now = tasks ++ news ∧
      news.length = descs.length ∧
      (news.map Task.id).Pairwise (· < ·) ∧
      ∀ t ∈ tasks, ∀ u ∈ news, t.id < u.id) :=
  ⟨rfl, fun hne => getNextId_eq_max_succ tasks hne hpos,
    addMany_spec descs tasks now hd⟩

/-- Witness for C6 at a concrete input: adding two tasks to a store holding
id 2 appends two tasks with fresh increasing ids. -/
theorem C6_add_ids_witness :
    ∃ news, addMany [⟨2, "a", "todo", "x", "x"⟩] ["b", "c"] "n" =
        [⟨2, "a", "todo", "x", "x"⟩] ++ news ∧
      news.length = (["b", "c"] : List String).length ∧
      (news.map Task.id).Pairwise (· < ·) ∧
      ∀ t ∈ [(⟨2, "a", "todo", "x", "x"⟩ : Task)], ∀ u ∈ news, t.id < u.id :=
  (C6_add_ids [⟨2, "a", "todo", "x", "x"⟩] ["b", "c"] "n" (by decide) (by decide)).2.2

/-! ### Lowercasing lemmas -/

lemma toNat_ofNat_of_valid (n : Nat) (h : n.isValidChar) :
    (Char.ofNat n).toNat = n := by
  rw [Char.ofNat, dif_pos h]
  rfl

lemma char_toLower_idem (c : Char) : c.toLower.toLower = c.toLower := by
  by_cases h : c.toNat ≥ 65 ∧ c.toNat ≤ 90
  · have h1 : c.toLower = Char.ofNat (c.toNat + 32) := by
      simp only [Char.toLower]
      rw [if_pos h]
    have hv : Nat.isValidChar (c.toNat + 32) := Or.inl (by omega)
    have ht : (Char.ofNat (c.toNat + 32)).toNat = c.toNat + 32 :=
      toNat_ofNat_of_valid _ hv
    rw [h1]
    simp only [Char.toLower]
    rw [if_neg (by rw [ht]; omega)]
  · have h1 : c.toLower = c := by
      simp only [Char.toLower]
      rw [if_neg h]
    rw [h1, h1]

lemma toLowerJS_idem (s : String) : toLowerJS (toLowerJS s) = toLowerJS s := by
  unfold toLowerJS
  congr 1
  rw [show (String.mk (s.data.map Char.toLower)).data = s.data.map Char.toLower from rfl]
  rw [List.map_map]
  exact List.map_congr_left (fun c _ => char_toLower_idem c)

lemma toLowerJS_ne_empty (s : String) (h : s ≠ "") : toLowerJS s ≠ "" := by
  intro hcon
  apply h
  have h1 : s.data.map Char.toLower = ([] : List Char) :=
    congrArg String.data hcon
  have h2 : s.data = [] := List.map_eq_nil_iff.1 h1
  cases s with
  | mk l =>
    rw [show (String.mk l).data = l from rfl] at h2
    rw [h2]

/-! ### List-operation claims -/

/-- C3 counterexample: on an empty stored collection the unrecognized filter
`"bogus"` is never validated; `list` reports the no-tasks message instead of
an invalid-filter error. -/
theorem C3_counterexample :
    listTasks [] (some "bogus") = ListResult.noTasks ∧
    ListResult.noTasks ≠ ListResult.invalidFilter "bogus" :=
  ⟨rfl, by simp⟩

/-- C3 amended: for a non-empty stored collection and a non-empty filter
string whose lowercase form is not one of all, todo, in-progress, done,
`list` reports the invalid-filter error (and lists nothing); on an empty
stored collection `list` reports the no-tasks message instead, whatever the
filter is. -/
theorem C3_invalid_filter_amended (s : String) :
    (∀ tasks : List Task, tasks ≠ [] → s ≠ "" →
      toLowerJS s ∉ (["all", "todo", "in-progress", "done"] : List String) →
      listTasks tasks (some s) = .invalidFilter (toLowerJS s)) ∧
    listTasks [] (some s) = .noTasks := by
  refine ⟨fun tasks hne hs hbad => ?_, rfl⟩
  have hlen : ¬ tasks.length = 0 := by
    simpa [List.length_eq_zero] using hne
  have hball : toLowerJS s ≠ "all" := by
    intro hcon
    exact hbad (by rw [hcon]; simp)
  have hcont : (["todo", "in-progress", "done"] : List String).contains (toLowerJS s)
      = false := by
    simp only [List.contains, List.elem_eq_mem, decide_eq_false_iff_not]
    intro hcon
    apply hbad
    simp only [List.mem_cons] at hcon ⊢
    tauto
  have hne3 : ¬toLowerJS s = "todo" ∧ ¬toLowerJS s = "in-progress" ∧
      ¬toLowerJS s = "done" :=
    ⟨fun h => hbad (by simp [h]), fun h => hbad (by simp [h]),
      fun h => hbad (by simp [h])⟩
  cases tasks with
  | nil => exact absurd rfl hne
  | cons t ts =>
    simp only [listTasks]
    rw [if_neg (by simp), if_neg hs, if_pos hball,
      if_pos (by simp only [List.contains, List.elem_eq_mem, List.mem_cons,
        List.mem_singleton, decide_eq_true_eq, not_or]; tauto)]

/-- Witness for C3 amended at a concrete input: the filter `"bogus"` on a
one-task store is rejected as invalid. -/
theorem C3_invalid_filter_amended_witness :
    listTasks [⟨1, "a", "todo", "x", "x"⟩] (some "bogus") =
      ListResult.invalidFilter (toLowerJS "bogus") :=
  (C3_invalid_filter_amended "bogus").1 [⟨1, "a", "todo", "x", "x"⟩]
    (by simp) (by decide) (by decide)

lemma listTasks_valid_status (tasks : List Task) (f : String)
    (hfa : f ≠ "all") (hfe : f ≠ "") (hlow : toLowerJS f = f)
    (hmem : (["todo", "in-progress", "done"] : List String).contains f = true) :
    (listTasks tasks (some f)).displayed = tasks.filter (fun t => t.status == f) ∧
    (listTasks tasks (some f)).isInvalidFilter = false := by
  cases tasks with
  | nil => simp [listTasks, ListResult.displayed, ListResult.isInvalidFilter]
  | cons t ts =>
    have hred : listTasks (t :: ts) (some f) =
        (if ((t :: ts).filter (fun u => u.status == f)).length = 0
          then ListResult.noneWithStatus f
          else ListResult.display ((t :: ts).filter (fun u => u.status == f))) := by
      have hor : f = "todo" ∨ f = "in-progress" ∨ f = "done" := by
        simp only [List.contains, List.elem_eq_mem, List.mem_cons,
          List.mem_singleton, decide_eq_true_eq] at hmem
        tauto
      simp only [listTasks]
      rw [if_neg (by simp), if_neg hfe, hlow, if_pos hfa,
        if_neg (by simp only [List.contains, List.elem_eq_mem, List.mem_cons,
          List.mem_singleton, decide_eq_true_eq, not_not, not_forall]; tauto)]
    rw [hred]
    by_cases hlen : ((t :: ts).filter (fun u => u.status == f)).length = 0
    · rw [if_pos hlen, List.length_eq_zero.1 hlen]
      exact ⟨rfl, rfl⟩
    · rw [if_neg hlen]
      exact ⟨rfl, rfl⟩

lemma listTasks_all_filter (tasks : List Task) (raw : Option String)
    (hraw : raw = none ∨ raw = some "all") :
    (listTasks tasks raw).displayed = tasks ∧
    (listTasks tasks raw).isInvalidFilter = false := by
  have hall : toLowerJS "all" = "all" := by decide
  cases tasks with
  | nil =>
    rcases hraw with rfl | rfl <;>
      simp [listTasks, ListResult.displayed, ListResult.isInvalidFilter]
  | cons t ts =>
    rcases hraw with rfl | rfl <;>
      simp [listTasks, hall, ListResult.displayed, ListResult.isInvalidFilter]

/-- C9: for each recognized filter, `list` shows exactly the subsequence of
stored tasks whose status equals the filter, in stored order, never
reporting an invalid filter; `all` and an omitted filter show everything;
and on the sample store where exactly task 3 is done, `list done` shows
exactly task 3. -/
theorem C9_list_matches_filter :
    (∀ tasks : List Task, (listTasks tasks none).displayed = tasks ∧
      (listTasks tasks none).isInvalidFilter = false) ∧
    (∀ tasks : List Task, (listTasks tasks (some "all")).displayed = tasks ∧
      (listTasks tasks (some "all")).isInvalidFilter = false) ∧
    (∀ tasks : List Task, (listTasks tasks (some "todo")).displayed =
        tasks.filter (fun t => t.status == "todo") ∧
      (listTasks tasks (some "todo")).isInvalidFilter = false) ∧
    (∀ tasks : List Task, (listTasks tasks (some "in-progress")).displayed =
        tasks.filter (fun t => t.status == "in-progress") ∧
      (listTasks tasks (some "in-progress")).isInvalidFilter = false) ∧
    (∀ tasks : List Task, (listTasks tasks (some "done")).displayed =
        tasks.filter (fun t => t.status == "done") ∧
      (listTasks tasks (some "done")).isInvalidFilter = false) ∧
    listTasks [⟨1, "a", "todo", "x", "x"⟩, ⟨2, "b", "in-progress", "x", "x"⟩,
        ⟨3, "c", "done", "x", "x"⟩] (some "done") =
      ListResult.display [⟨3, "c", "done", "x", "x"⟩] := by
  refine ⟨fun tasks => listTasks_all_filter tasks none (Or.inl rfl),
    fun tasks => listTasks_all_filter tasks (some "all") (Or.inr rfl),
    fun tasks => listTasks_valid_status tasks "todo" (by decide) (by decide)
      (by decide) (by decide),
    fun tasks => listTasks_valid_status tasks "in-progress" (by decide) (by decide)
      (by decide) (by decide),
    fun tasks => listTasks_valid_status tasks "done" (by decide) (by decide)
      (by decide) (by decide), ?_⟩
  decide

/-- C10: filter matching is case-insensitive; `list` with any filter string
behaves exactly like `list` with its lowercase form, because the code
lowercases the filter before comparing. -/
theorem C10_filter_case_insensitive (tasks : List Task) (s : String) :
    listTasks tasks (some s) = listTasks tasks (some (toLowerJS s)) := by
  by_cases hs : s = ""
  · subst hs
    rfl
  · have hls : toLowerJS s ≠ "" := toLowerJS_ne_empty s hs
    simp only [listTasks, if_neg hs, if_neg hls, toLowerJS_idem]

/-! ### Store claims -/

/-- C5 counterexample: file content that parses as the JSON number 5 is not
a sequence of Task records, yet `load` neither reports a corrupt-data
condition nor returns the empty sequence — it returns the parsed value
as-is, because only `JSON.parse` exceptions are caught and no schema is
checked. -/
theorem C5_counterexample :
    isTaskArray (JVal.num 5) = false ∧
    loadTasks (FileState.content (some (JVal.num 5))) =
      LoadOutcome.mk (JVal.num 5) false ∧
    JVal.num 5 ≠ JVal.arr [] := by
  refine ⟨rfl, rfl, by simp⟩

/-- C5 amended: `load` returns the empty sequence for an absent or
zero-length file; it reports the corrupt-data condition and returns the
empty sequence exactly when the content fails to parse as JSON; and any
successfully parsed JSON value — whether or not it matches the Task-array
schema — is returned unchanged with no report. -/
theorem C5_load_amended :
    loadTasks FileState.absent = ⟨JVal.arr [], false⟩ ∧
    loadTasks FileState.empty = ⟨JVal.arr [], false⟩ ∧
    (∀ v, loadTasks (FileState.content (some v)) = ⟨v, false⟩) ∧
    loadTasks (FileState.content none) = ⟨JVal.arr [], true⟩ :=
  ⟨rfl, rfl, fun _ => rfl, rfl⟩

example : parseIntJS "2" = some 2 := by decide
example : parseIntJS "-5" = some (-5) := by decide
example : parseIntJS "3.7" = some 3 := by decide
example : parseIntJS "abc" = none := by decide
example : parseIntJS "" = none := by decide
example : toLowerJS "DONE" = "done" := by decide
example : getNextId [] = 1 := by decide

end TaskCli
